import Mathlib

set_option maxRecDepth 8192

/-!
Shallow embedding of the Udemy platform module (`src/platforms/udemy.py`):
cookie handling, session-header derivation, pagination, curriculum tree
building and video/attachment resolution.  Strings are modelled by Lean
`String` (a wrapper around `List Char`), Python `None`-able values by
`Option`, raised exceptions by `Option`/`Except`, and the mutable
`requests.Session` header dictionary by a function `String → Option String`.
-/

/-- Characters of a string list dropped from the front while a predicate
holds; used to mirror Python's `str.strip` family on both ends. -/
def stripEndsWith (p : Char → Bool) (l : List Char) : List Char :=
  ((l.dropWhile p).reverse.dropWhile p).reverse

/-- Python `s.strip()` on the character list of a string: whitespace removed
from both ends. -/
def stripWsL (l : List Char) : List Char :=
  stripEndsWith Char.isWhitespace l

/-- Python `s.strip(c)` for a single character argument: that character
removed from both ends. -/
def stripCharL (c : Char) (l : List Char) : List Char :=
  stripEndsWith (fun x => x == c) l

/-- Python `s.split(sep)` for a one-character separator, on character lists:
`""` splits to `[""]`, separators at the ends produce empty fields. -/
def splitOnCharL (c : Char) (l : List Char) : List (List Char) :=
  l.foldr
    (fun ch acc =>
      match acc with
      | [] => [[ch]]
      | a :: as => if ch == c then [] :: a :: as else (ch :: a) :: as)
    [[]]

/-- Boolean list-prefix test, mirroring Python `str.startswith`. -/
def isPre : List Char → List Char → Bool
  | [], _ => true
  | _ :: _, [] => false
  | a :: as, b :: bs => a == b && isPre as bs

/-- Boolean substring test, mirroring Python's `needle in haystack`. -/
def containsSub (n : List Char) : List Char → Bool
  | [] => n.isEmpty
  | c :: t => isPre n (c :: t) || containsSub n t

theorem isPre_iff (n : List Char) : ∀ h : List Char, isPre n h = true ↔ ∃ t, h = n ++ t := by
  induction n with
  | nil =>
    intro h
    simp [isPre]
  | cons a as ih =>
    intro h
    cases h with
    | nil =>
      simp [isPre]
    | cons b bs =>
      simp only [isPre, Bool.and_eq_true, beq_iff_eq]
      constructor
      · rintro ⟨hab, hpre⟩
        obtain ⟨t, ht⟩ := (ih bs).mp hpre
        exact ⟨t, by simp [hab, ht]⟩
      · rintro ⟨t, ht⟩
        simp only [List.cons_append, List.cons.injEq] at ht
        exact ⟨ht.1.symm, (ih bs).mpr ⟨t, ht.2⟩⟩

/-! ### Required-cookie completeness check (`UdemyTokenFetcher._has_required_cookies`) -/

/-- The four cookie names required for a capture to be considered complete. -/
def requiredCookies : List String :=
  ["cf_clearance", "csrftoken", "ud_cache_user", "dj_session_id"]

/-- The semicolon-split, whitespace-stripped, nonempty parts of a cookie
header, as in `_has_required_cookies` and `_log_cookies_from_header`. -/
def cookieParts (h : String) : List (List Char) :=
  ((splitOnCharL ';' h.data).map stripWsL).filter (fun p => !p.isEmpty)

/-- `UdemyTokenFetcher._has_required_cookies`: every required cookie name
must appear as `name=` at the start of some stripped cookie part. -/
def hasRequiredCookies (h : String) : Bool :=
  requiredCookies.all
    (fun req => (cookieParts h).any (fun part => isPre (req.data ++ ['=']) part))

/-- The names of the cookies present in a header: for each stripped part
containing an `=`, the text before the first `=`.  This is the spec-side
notion of a cookie "being present" in the header, independent of the
implementation's prefix test. -/
def cookieNames (h : String) : List (List Char) :=
  (cookieParts h).filterMap
    (fun p => if p.contains '=' then some (p.takeWhile (fun c => c != '=')) else none)

theorem takeWhile_append_stop (p : Char → Bool) :
    ∀ (pre tail : List Char) (x : Char), (∀ a ∈ pre, p a = true) → p x = false →
      List.takeWhile p (pre ++ x :: tail) = pre := by
  intro pre
  induction pre with
  | nil =>
    intro tail x _ hx
    simp [List.takeWhile, hx]
  | cons a as ih =>
    intro tail x hall hx
    have ha : p a = true := hall a (List.mem_cons_self a as)
    simp only [List.cons_append, List.takeWhile, ha, List.append_eq]
    rw [ih tail x (fun b hb => hall b (List.mem_cons_of_mem a hb)) hx]

theorem dropWhile_head_false (p : Char → Bool) :
    ∀ (l : List Char) (x : Char) (xs : List Char), List.dropWhile p l = x :: xs → p x = false := by
  intro l
  induction l with
  | nil =>
    intro x xs h
    simp [List.dropWhile] at h
  | cons a t ih =>
    intro x xs h
    by_cases ha : p a = true
    · rw [List.dropWhile_cons_of_pos ha] at h
      exact ih x xs h
    · rw [List.dropWhile_cons_of_neg ha] at h
      cases h
      exact Bool.eq_false_iff.mpr ha

theorem isPre_name_eq (name : List Char) (hn : '=' ∉ name) (part : List Char) :
    isPre (name ++ ['=']) part = true ↔
      ('=' ∈ part ∧ part.takeWhile (fun c => c != '=') = name) := by
  rw [isPre_iff]
  have hallname : ∀ a ∈ name, (a != '=') = true := by
    intro a ha
    have : a ≠ '=' := fun h => hn (h ▸ ha)
    simp [this]
  constructor
  · rintro ⟨t, ht⟩
    rw [List.append_assoc] at ht
    subst ht
    refine ⟨by simp, ?_⟩
    exact takeWhile_append_stop _ name t '=' hallname (by simp)
  · rintro ⟨hmem, htk⟩
    have hsplit := List.takeWhile_append_dropWhile (fun c => c != '=') part
    cases hdrop : List.dropWhile (fun c => c != '=') part with
    | nil =>
      exfalso
      rw [hdrop, List.append_nil] at hsplit
      have : '=' ∈ part.takeWhile (fun c => c != '=') := by rw [hsplit]; exact hmem
      have := List.mem_takeWhile_imp this
      simp at this
    | cons x xs =>
      have hx := dropWhile_head_false _ part x xs hdrop
      have hxe : x = '=' := by simpa using hx
      refine ⟨xs, ?_⟩
      rw [← hsplit, hdrop, htk, hxe, List.append_assoc]
      rfl

theorem requiredCookies_no_eq : ∀ req ∈ requiredCookies, '=' ∉ req.data := by
  decide

/-- Claim C7: `_has_required_cookies` returns `true` exactly when every one
of the four required cookie names occurs among the names of the cookies in
the header; it returns `false` whenever any required cookie is missing and
`true` whenever all four are present, regardless of any other cookies in the
header and of the order of the cookies. -/
theorem hasRequiredCookies_iff_all_present (h : String) :
    hasRequiredCookies h = true ↔ ∀ req ∈ requiredCookies, req.data ∈ cookieNames h := by
  unfold hasRequiredCookies
  rw [List.all_eq_true]
  constructor
  · intro hall req hreq
    have hne := requiredCookies_no_eq req hreq
    obtain ⟨part, hpart, hp⟩ := List.any_eq_true.mp (hall req hreq)
    obtain ⟨hmem, htk⟩ := (isPre_name_eq req.data hne part).mp hp
    refine List.mem_filterMap.mpr ⟨part, hpart, ?_⟩
    have hcon : part.contains '=' = true := by simp [List.contains, List.elem_eq_mem, hmem]
    rw [if_pos hcon, htk]
  · intro hall req hreq
    have hne := requiredCookies_no_eq req hreq
    obtain ⟨part, hpart, hf⟩ := List.mem_filterMap.mp (hall req hreq)
    rw [List.any_eq_true]
    refine ⟨part, hpart, ?_⟩
    by_cases hcon : part.contains '=' = true
    · rw [if_pos hcon] at hf
      have hmem : '=' ∈ part := by simpa [List.contains, List.elem_eq_mem] using hcon
      exact (isPre_name_eq req.data hne part).mpr ⟨hmem, Option.some.injEq _ _ ▸ hf⟩
    · rw [if_neg hcon] at hf
      exact absurd hf (by simp)

/-! ### Course-listing request parameters (`UdemyPlatform.fetch_courses`) -/

/-- The fixed course-listing endpoint URL used for the first request of
`fetch_courses`. -/
def coursesInitialUrl : String :=
  "https://www.udemy.com/api-2.0/users/me/subscribed-courses/"

/-- The `is_initial` test of `fetch_courses`: the ordering/field/pagination
query parameters are attached to a request exactly when its URL contains the
listing path and does not contain the substring `page=`. -/
def isInitialCoursesRequest (url : String) : Bool :=
  containsSub ("api-2.0/users/me/subscribed-courses/".data) url.data &&
    !(containsSub ("page=".data) url.data)

/-- Claim C5, counterexample: a server-provided `next` cursor URL that
contains the listing path but no `page=` substring is NOT followed with the
parameters dropped — `fetch_courses` re-attaches the initial parameters to
it, although it differs from the initial URL. -/
theorem coursesParams_reattached_on_cursor :
    isInitialCoursesRequest
        "https://www.udemy.com/api-2.0/users/me/subscribed-courses/?cursor=abc" = true ∧
      "https://www.udemy.com/api-2.0/users/me/subscribed-courses/?cursor=abc" ≠
        coursesInitialUrl := by
  constructor
  · decide
  · decide

/-- Claim C5, amended: the initial listing request carries the query
parameters, and any request whose URL contains the substring `page=` — in
particular every real `next` cursor URL, which embeds a `page=` parameter —
is followed verbatim with no parameters re-attached.  (A cursor URL without
`page=` would have the parameters re-attached, see the counterexample.) -/
theorem coursesParams_page_marker :
    isInitialCoursesRequest coursesInitialUrl = true ∧
      ∀ u : String, containsSub ("page=".data) u.data = true →
        isInitialCoursesRequest u = false := by
  constructor
  · decide
  · intro u hu
    unfold isInitialCoursesRequest
    rw [hu]
    simp

theorem coursesParams_page_marker_witness :
    isInitialCoursesRequest "https://www.udemy.com/api-2.0/users/me/subscribed-courses/?p=1&page=2" = false :=
  coursesParams_page_marker.2
    "https://www.udemy.com/api-2.0/users/me/subscribed-courses/?p=1&page=2" (by decide)

/-! ### Course slug derivation (`UdemyPlatform.fetch_courses` row projection) -/

/-- Slash-separated segments of a URL after stripping leading and trailing
slashes, as in `result.get("url", "").strip("/").split("/")`. -/
def segsOf (u : String) : List (List Char) :=
  splitOnCharL '/' (stripCharL '/' u.data)

/-- The slug expression of `fetch_courses`:
`result.get("url", "").strip("/").split("/")[-2] if result.get("url") else ""`.
`none` as input models an absent (or `None`) `url` field; `none` as output
models the `IndexError` raised by the `[-2]` index when the split produces
fewer than two segments, which would propagate and abort the listing. -/
def courseSlug (url : Option String) : Option String :=
  match url with
  | none => some ""
  | some u =>
    if u = "" then some ""
    else
      match (segsOf u).reverse with
      | _ :: a :: _ => some (String.mk a)
      | _ => none

/-- Claim C6, counterexample: the URL `"abc"` is non-empty but splits into a
single segment, so the `[-2]` index raises `IndexError` (modelled `none`)
instead of yielding the empty string; the claim's "non-fatal for every
possible URL value" fails. -/
theorem courseSlug_short_url_raises :
    courseSlug (some "abc") = none ∧ courseSlug (some "abc") ≠ some "" := by
  constructor
  · rfl
  · decide

/-- Claim C6, amended: an absent or empty URL yields the empty slug without
error; a URL whose stripped form splits into at least two segments yields
the second-to-last segment; but a non-empty URL with fewer than two segments
raises (modelled `none`), aborting the listing. -/
theorem courseSlug_spec :
    courseSlug none = some "" ∧
      courseSlug (some "") = some "" ∧
      (∀ (u : String) (l : List (List Char)) (a b : List Char),
        segsOf u = l ++ [a, b] → courseSlug (some u) = some (String.mk a)) ∧
      (∀ u : String, u ≠ "" → (segsOf u).length < 2 → courseSlug (some u) = none) := by
  refine ⟨rfl, rfl, ?_, ?_⟩
  · intro u l a b hseg
    have hu : u ≠ "" := by
      intro he
      subst he
      have : (segsOf "").length = (l ++ [a, b]).length := by rw [hseg]
      simp [segsOf, splitOnCharL, stripCharL, stripEndsWith] at this
    show (if u = "" then some "" else
      match (segsOf u).reverse with
      | _ :: a :: _ => some (String.mk a)
      | _ => none) = some (String.mk a)
    rw [if_neg hu, hseg]
    simp [List.reverse_append]
  · intro u hu hlen
    show (if u = "" then some "" else
      match (segsOf u).reverse with
      | _ :: a :: _ => some (String.mk a)
      | _ => none) = none
    rw [if_neg hu]
    have hlen2 : (segsOf u).reverse.length < 2 := by
      rw [List.length_reverse]
      exact hlen
    cases hrev : (segsOf u).reverse with
    | nil => rfl
    | cons x t =>
      cases t with
      | nil => rfl
      | cons y t2 =>
        rw [hrev] at hlen2
        simp only [List.length_cons] at hlen2
        exact absurd hlen2 (by omega)

theorem courseSlug_spec_witness :
    courseSlug (some "course/my-course") = some (String.mk ['c', 'o', 'u', 'r', 's', 'e']) ∧
      courseSlug (some "/") = none :=
  ⟨courseSlug_spec.2.2.1 "course/my-course" []
      ['c', 'o', 'u', 'r', 's', 'e'] ['m', 'y', '-', 'c', 'o', 'u', 'r', 's', 'e'] (by decide),
    courseSlug_spec.2.2.2 "/" (by decide) (by decide)⟩

/-! ### Video quality selection (`UdemyPlatform._get_video_details`) -/

/-- One entry dict of the asset's `media_sources` list, through the
observations `_get_video_details` makes of it: `get("label")` and
`get("src")` (a `none` field covers both an absent key and a key stored
with a null value, which those reads do not distinguish), plus
`hasOtherKeys`, recording whether the dict holds anything beyond
string-valued `label`/`src` entries (another key, or a null-valued
`label`/`src` key) — needed because `if best:` tests the dict's
truthiness, i.e. non-emptiness. -/
structure MediaSource where
  label : Option String
  src : Option String
  hasOtherKeys : Bool
deriving DecidableEq

/-- Python truthiness of an entry dict (`if best:`): the dict is non-empty,
i.e. it has a string-valued `label` or `src` entry or any other key. -/
def dictTruthy (s : MediaSource) : Bool :=
  s.label.isSome || s.src.isSome || s.hasOtherKeys

/-- Digits-to-number accumulation used by the integer parse model. -/
def pyDigits (l : List Char) : Nat :=
  l.foldl (fun n c => n * 10 + (c.toNat - '0'.toNat)) 0

/-- Model of Python `int(s)` on the strings this program feeds it:
surrounding whitespace is allowed, then an optional sign and a nonempty
digit run; anything else fails (`ValueError`, modelled `none`). -/
def pyInt (s : String) : Option Int :=
  match stripWsL s.data with
  | '-' :: ds =>
    if !ds.isEmpty && ds.all Char.isDigit then some (-(pyDigits ds : Int)) else none
  | '+' :: ds =>
    if !ds.isEmpty && ds.all Char.isDigit then some ((pyDigits ds : Int)) else none
  | ds =>
    if !ds.isEmpty && ds.all Char.isDigit then some ((pyDigits ds : Int)) else none

/-- The per-entry resolution value of `_get_video_details`: the label
(defaulting to `"0"` when absent) with every `p` removed, parsed as an
integer; a parse failure counts as `0`. -/
def resOf (s : MediaSource) : Int :=
  match pyInt (String.mk ((s.label.getD "0").data.filter (fun c => c != 'p'))) with
  | some n => n
  | none => 0

/-- The `best`/`max_res` selection loop of `_get_video_details`, with the
running best entry and running maximum as explicit state. -/
def selectAux : List MediaSource → Option MediaSource → Int → Option MediaSource × Int
  | [], best, maxRes => (best, maxRes)
  | s :: rest, best, maxRes =>
    if resOf s > maxRes then selectAux rest (some s) (resOf s) else selectAux rest best maxRes

/-- The selected best media source, starting from `best = None`,
`max_res = -1` as in `_get_video_details`. -/
def selectBest (l : List MediaSource) : Option MediaSource :=
  (selectAux l none (-1)).1

theorem selectAux_spec :
    ∀ (l : List MediaSource) (best : Option MediaSource) (m : Int),
      (selectAux l best m = (best, m) ∧ ∀ x ∈ l, resOf x ≤ m) ∨
        (∃ l1 b l2, l = l1 ++ b :: l2 ∧ selectAux l best m = (some b, resOf b) ∧
          resOf b > m ∧ (∀ x ∈ l1, resOf x < resOf b) ∧ (∀ x ∈ l2, resOf x ≤ resOf b)) := by
  intro l
  induction l with
  | nil =>
    intro best m
    exact Or.inl ⟨rfl, by simp⟩
  | cons s rest ih =>
    intro best m
    by_cases hs : resOf s > m
    · rw [show selectAux (s :: rest) best m = selectAux rest (some s) (resOf s) by
        simp [selectAux, hs]]
      rcases ih (some s) (resOf s) with ⟨heq, hall⟩ | ⟨l1, b, l2, hdec, heq, hgt, hl1, hl2⟩
      · exact Or.inr ⟨[], s, rest, rfl, heq, hs, by simp, hall⟩
      · refine Or.inr ⟨s :: l1, b, l2, by rw [hdec]; rfl, heq, lt_trans hs hgt, ?_, hl2⟩
        intro x hx
        rcases List.mem_cons.mp hx with hx | hx
        · exact hx ▸ hgt
        · exact hl1 x hx
    · rw [show selectAux (s :: rest) best m = selectAux rest best m by
        simp [selectAux, hs]]
      rcases ih best m with ⟨heq, hall⟩ | ⟨l1, b, l2, hdec, heq, hgt, hl1, hl2⟩
      · refine Or.inl ⟨heq, ?_⟩
        intro x hx
        rcases List.mem_cons.mp hx with hx | hx
        · exact hx ▸ le_of_not_lt hs
        · exact hall x hx
      · refine Or.inr ⟨s :: l1, b, l2, by rw [hdec]; rfl, heq, hgt, ?_, hl2⟩
        intro x hx
        rcases List.mem_cons.mp hx with hx | hx
        · exact hx ▸ lt_of_le_of_lt (le_of_not_lt hs) hgt
        · exact hl1 x hx

/-- Claim C1, counterexample: for the one-element list whose label parses to
the negative value `-2`, the loop never selects any entry (`-2 > -1` fails),
so resolution does not pick the entry with the highest parsed value. -/
theorem selectBest_none_on_negative_label :
    selectBest [MediaSource.mk (some "-2") (some "u") false] = none := by
  rfl

/-- Claim C1, amended: whenever some entry's parsed resolution exceeds the
initial maximum `-1` (always the case when an entry's label is absent,
unparseable, or parses to a value above `-1`), the loop selects an entry;
any selected entry is the first entry attaining the maximum parsed
resolution — all earlier entries parse strictly smaller, all later entries
parse no larger, so a later equal-resolution entry never replaces an earlier
one.  In particular labels `"480p"`, `"720p"`, `"1080p"` in order select the
`"1080p"` entry, and a duplicate `"1080p"` after a first `"1080p"` entry is
not selected. -/
theorem selectBest_first_max :
    (∀ (l : List MediaSource) (b : MediaSource), selectBest l = some b →
      ∃ l1 l2, l = l1 ++ b :: l2 ∧
        (∀ x ∈ l1, resOf x < resOf b) ∧ (∀ x ∈ l2, resOf x ≤ resOf b)) ∧
      (∀ l : List MediaSource, (∃ x ∈ l, resOf x > -1) →
        ∃ b, selectBest l = some b) ∧
      selectBest [MediaSource.mk (some "480p") (some "u1") false,
          MediaSource.mk (some "720p") (some "u2") false,
          MediaSource.mk (some "1080p") (some "u3") false] =
        some (MediaSource.mk (some "1080p") (some "u3") false) ∧
      selectBest [MediaSource.mk (some "1080p") (some "first") false,
          MediaSource.mk (some "1080p") (some "second") false] =
        some (MediaSource.mk (some "1080p") (some "first") false) := by
  refine ⟨?_, ?_, by rfl, by rfl⟩
  · intro l b hsel
    rcases selectAux_spec l none (-1) with ⟨heq, -⟩ | ⟨l1, b', l2, hdec, heq, -, hl1, hl2⟩
    · rw [selectBest, heq] at hsel
      exact absurd hsel (by simp)
    · rw [selectBest, heq] at hsel
      have hb : b' = b := by simpa using hsel
      subst hb
      exact ⟨l1, l2, hdec, hl1, hl2⟩
  · intro l hex
    rcases selectAux_spec l none (-1) with ⟨-, hall⟩ | ⟨l1, b', l2, -, heq, -, -, -⟩
    · obtain ⟨x, hx, hgt⟩ := hex
      exact absurd (hall x hx) (by omega)
    · exact ⟨b', by rw [selectBest, heq]⟩

theorem selectBest_first_max_witness :
    (∃ l1 l2,
        [MediaSource.mk (some "720p") (some "u") false] =
          l1 ++ (MediaSource.mk (some "720p") (some "u") false) :: l2 ∧
        (∀ x ∈ l1, resOf x < resOf (MediaSource.mk (some "720p") (some "u") false)) ∧
        (∀ x ∈ l2, resOf x ≤ resOf (MediaSource.mk (some "720p") (some "u") false))) ∧
      (∃ b, selectBest [MediaSource.mk (some "720p") (some "u") false] = some b) :=
  ⟨selectBest_first_max.1 [MediaSource.mk (some "720p") (some "u") false]
      (MediaSource.mk (some "720p") (some "u") false) (by rfl),
    selectBest_first_max.2.1 [MediaSource.mk (some "720p") (some "u") false]
      ⟨MediaSource.mk (some "720p") (some "u") false, by simp, by decide⟩⟩

/-! ### Curriculum tree building (`UdemyPlatform.fetch_course_content`) -/

/-- One flat curriculum item as consumed by the grouping loop: the `_class`
discriminator, id, title, and the lecture's raw asset references. -/
structure CurItem where
  cls : String
  id : Int
  title : String
  asset : Option String
  supp : Option (List String)
deriving DecidableEq

/-- A lesson record as appended by the grouping loop: stringified id, title,
and the raw (unresolved) asset references. -/
structure Lesson where
  id : String
  name : String
  asset : Option String
  supp : Option (List String)
deriving DecidableEq

/-- A module of the final structure: id, name and the ordered lessons. -/
structure CourseModule where
  id : String
  name : String
  lessons : List Lesson
deriving DecidableEq

/-- The lesson dictionary built from a lecture item in
`fetch_course_content`. -/
def lessonOf (it : CurItem) : Lesson :=
  Lesson.mk (toString it.id) it.title it.asset it.supp

/-- One step of the grouping loop.  The state is the list of already
finished modules and the current module (the Python code appends the module
to the output list at creation time and mutates its `lessons` in place; the
equivalent functional state keeps the current module separate and flushes it
when a chapter starts or the loop ends). -/
def stepFold (cid : String) (st : List CourseModule × Option CourseModule) (it : CurItem) :
    List CourseModule × Option CourseModule :=
  if it.cls == "chapter" then
    (st.1 ++ st.2.toList, some (CourseModule.mk (toString it.id) it.title []))
  else if it.cls == "lecture" then
    match st.2 with
    | none =>
      (st.1, some (CourseModule.mk ("c_" ++ cid ++ "_startup") "Introduction" [lessonOf it]))
    | some m =>
      (st.1, some (CourseModule.mk m.id m.name (m.lessons ++ [lessonOf it])))
  else st

/-- The per-course grouping of `fetch_course_content`: when no item is a
chapter a default module named after the course is pre-created; chapters
start new modules; lectures append to the current module, lazily creating a
startup module when none exists yet. -/
def buildModules (cid cname : String) (items : List CurItem) : List CourseModule :=
  let hasChapter := items.any (fun it => it.cls == "chapter")
  let init : List CourseModule × Option CourseModule :=
    if hasChapter then ([], none)
    else ([], some (CourseModule.mk ("c_" ++ cid ++ "_default") cname []))
  let st := items.foldl (stepFold cid) init
  st.1 ++ st.2.toList

/-- A course descriptor as passed to `fetch_course_content`. -/
structure Course where
  id : String
  name : String
deriving DecidableEq

/-- `fetch_course_content` over a batch of courses: each course's curriculum
fetch either raises (`Except.error`) or returns its flat item list; a raised
fetch is caught and logged, and the loop moves on to the next course,
appending each successful course's modules to the shared structure. -/
def fetchCourseContent (fetchCur : Course → Except String (List CurItem))
    (courses : List Course) : List CourseModule :=
  courses.foldl
    (fun acc c =>
      match fetchCur c with
      | Except.error _ => acc
      | Except.ok items => acc ++ buildModules c.id c.name items)
    []

theorem stepFold_no_chapter (cid : String) :
    ∀ (items : List CurItem) (done : List CourseModule) (i n : String) (ls : List Lesson),
      (∀ it ∈ items, it.cls ≠ "chapter") →
      items.foldl (stepFold cid) (done, some (CourseModule.mk i n ls)) =
        (done, some (CourseModule.mk i n
          (ls ++ (items.filter (fun it => it.cls == "lecture")).map lessonOf))) := by
  intro items
  induction items with
  | nil =>
    intro done i n ls _
    simp
  | cons it rest ih =>
    intro done i n ls hnc
    have hitc : (it.cls == "chapter") = false := by
      simp [hnc it (List.mem_cons_self it rest)]
    by_cases hl : (it.cls == "lecture") = true
    · rw [List.foldl_cons,
        show stepFold cid (done, some (CourseModule.mk i n ls)) it =
          (done, some (CourseModule.mk i n (ls ++ [lessonOf it]))) by
            simp [stepFold, hitc, hl]]
      rw [ih done i n (ls ++ [lessonOf it]) (fun x hx => hnc x (List.mem_cons_of_mem it hx))]
      simp [List.filter_cons, hl]
    · rw [List.foldl_cons,
        show stepFold cid (done, some (CourseModule.mk i n ls)) it =
          (done, some (CourseModule.mk i n ls)) by
            simp [stepFold, hitc, Bool.eq_false_iff.mpr hl]]
      rw [ih done i n ls (fun x hx => hnc x (List.mem_cons_of_mem it hx))]
      have hlf : (it.cls == "lecture") = false := Bool.eq_false_iff.mpr hl
      simp [List.filter_cons, hlf]

/-- Claim C2: a curriculum feed with no chapter item produces exactly one
module, named after the course with the synthesized default id, holding the
lessons of all lecture items in their original feed order. -/
theorem buildModules_no_chapter_default (cid cname : String) (items : List CurItem)
    (hnc : ∀ it ∈ items, it.cls ≠ "chapter") :
    buildModules cid cname items =
      [CourseModule.mk ("c_" ++ cid ++ "_default") cname
        ((items.filter (fun it => it.cls == "lecture")).map lessonOf)] := by
  have hany : items.any (fun it => it.cls == "chapter") = false := by
    rw [List.any_eq_false]
    intro it hit
    simp [hnc it hit]
  unfold buildModules
  rw [hany]
  simp only [Bool.false_eq_true, if_neg (by simp : ¬ (False : Prop))]
  rw [stepFold_no_chapter cid items [] ("c_" ++ cid ++ "_default") cname [] hnc]
  simp

theorem buildModules_no_chapter_default_witness :
    buildModules "42" "My Course"
        [CurItem.mk "lecture" 7 "L0" (some "a0") none,
          CurItem.mk "quiz" 8 "Q0" none none,
          CurItem.mk "lecture" 9 "L1" none (some ["s1"])] =
      [CourseModule.mk ("c_" ++ "42" ++ "_default") "My Course"
        (([CurItem.mk "lecture" 7 "L0" (some "a0") none,
            CurItem.mk "quiz" 8 "Q0" none none,
            CurItem.mk "lecture" 9 "L1" none (some ["s1"])].filter
              (fun it => it.cls == "lecture")).map lessonOf)] :=
  buildModules_no_chapter_default "42" "My Course" _ (by decide)

/-- The final structure produced from a fold state: the finished modules
followed by the still-open current module, if any. -/
def finishState (st : List CourseModule × Option CourseModule) : List CourseModule :=
  st.1 ++ st.2.toList

theorem finishState_foldl_done (cid : String) :
    ∀ (items : List CurItem) (done : List CourseModule) (cur : Option CourseModule),
      finishState (items.foldl (stepFold cid) (done, cur)) =
        done ++ finishState (items.foldl (stepFold cid) ([], cur)) := by
  intro items
  induction items with
  | nil =>
    intro done cur
    simp [finishState]
  | cons it rest ih =>
    intro done cur
    by_cases hc : (it.cls == "chapter") = true
    · rw [List.foldl_cons, List.foldl_cons,
        show stepFold cid (done, cur) it =
          (done ++ cur.toList, some (CourseModule.mk (toString it.id) it.title [])) by
            simp [stepFold, hc],
        show stepFold cid (([] : List CourseModule), cur) it =
          (cur.toList, some (CourseModule.mk (toString it.id) it.title [])) by
            simp [stepFold, hc]]
      rw [ih (done ++ cur.toList) _, ih cur.toList _]
      simp [List.append_assoc]
    · have hcf : (it.cls == "chapter") = false := Bool.eq_false_iff.mpr hc
      by_cases hl : (it.cls == "lecture") = true
      · cases cur with
        | none =>
          rw [List.foldl_cons, List.foldl_cons,
            show stepFold cid (done, none) it =
              (done, some (CourseModule.mk ("c_" ++ cid ++ "_startup") "Introduction"
                [lessonOf it])) by simp [stepFold, hcf, hl],
            show stepFold cid (([] : List CourseModule), none) it =
              ([], some (CourseModule.mk ("c_" ++ cid ++ "_startup") "Introduction"
                [lessonOf it])) by simp [stepFold, hcf, hl]]
          exact ih done _
        | some m =>
          rw [List.foldl_cons, List.foldl_cons,
            show stepFold cid (done, some m) it =
              (done, some (CourseModule.mk m.id m.name (m.lessons ++ [lessonOf it]))) by
                simp [stepFold, hcf, hl],
            show stepFold cid (([] : List CourseModule), some m) it =
              ([], some (CourseModule.mk m.id m.name (m.lessons ++ [lessonOf it]))) by
                simp [stepFold, hcf, hl]]
          exact ih done _
      · have hlf : (it.cls == "lecture") = false := Bool.eq_false_iff.mpr hl
        rw [List.foldl_cons, List.foldl_cons,
          show stepFold cid (done, cur) it = (done, cur) by simp [stepFold, hcf, hlf],
          show stepFold cid (([] : List CourseModule), cur) it = ([], cur) by
            simp [stepFold, hcf, hlf]]
        exact ih done cur

theorem stepFold_leading (cid : String) :
    ∀ (pre : List CurItem) (done : List CourseModule),
      (∀ it ∈ pre, it.cls ≠ "chapter") → (∃ it ∈ pre, it.cls = "lecture") →
      pre.foldl (stepFold cid) (done, none) =
        (done, some (CourseModule.mk ("c_" ++ cid ++ "_startup") "Introduction"
          ((pre.filter (fun it => it.cls == "lecture")).map lessonOf))) := by
  intro pre
  induction pre with
  | nil =>
    intro done _ hex
    exact absurd hex (by simp)
  | cons it rest ih =>
    intro done hnc hex
    have hcf : (it.cls == "chapter") = false := by
      simp [hnc it (List.mem_cons_self it rest)]
    by_cases hl : (it.cls == "lecture") = true
    · rw [List.foldl_cons,
        show stepFold cid (done, none) it =
          (done, some (CourseModule.mk ("c_" ++ cid ++ "_startup") "Introduction"
            [lessonOf it])) by simp [stepFold, hcf, hl]]
      rw [stepFold_no_chapter cid rest done _ _ _
        (fun x hx => hnc x (List.mem_cons_of_mem it hx))]
      simp [List.filter_cons, hl]
    · have hlf : (it.cls == "lecture") = false := Bool.eq_false_iff.mpr hl
      rw [List.foldl_cons,
        show stepFold cid (done, none) it = (done, none) by simp [stepFold, hcf, hlf]]
      have hex2 : ∃ x ∈ rest, x.cls = "lecture" := by
        obtain ⟨x, hx, hxl⟩ := hex
        rcases List.mem_cons.mp hx with hx | hx
        · exact absurd (by simp [hx ▸ hxl] : (it.cls == "lecture") = true) hl
        · exact ⟨x, hx, hxl⟩
      rw [ih done (fun x hx => hnc x (List.mem_cons_of_mem it hx)) hex2]
      simp [List.filter_cons, hlf]

/-- Claim C3: when at least one lecture precedes the first chapter of a feed
that does contain a chapter, the lazily created startup module (synthesized
id, named "Introduction") opens the module list and holds exactly the
leading lectures in order; in particular the feed
`[lecture L0, chapter C1, lecture L1, lecture L2]` yields exactly two
modules, the startup module with `L0` and the chapter module with `L1, L2`
in order. -/
theorem buildModules_startup_module :
    (∀ (cid cname : String) (pre : List CurItem) (ch : CurItem) (rest : List CurItem),
      (∀ it ∈ pre, it.cls ≠ "chapter") → (∃ it ∈ pre, it.cls = "lecture") →
      ch.cls = "chapter" →
      ∃ tailMods, buildModules cid cname (pre ++ ch :: rest) =
        CourseModule.mk ("c_" ++ cid ++ "_startup") "Introduction"
            ((pre.filter (fun it => it.cls == "lecture")).map lessonOf) :: tailMods) ∧
      buildModules "5" "C"
          [CurItem.mk "lecture" 10 "L0" (some "a0") none,
            CurItem.mk "chapter" 11 "C1" none none,
            CurItem.mk "lecture" 12 "L1" (some "a1") none,
            CurItem.mk "lecture" 13 "L2" (some "a2") none] =
        [CourseModule.mk ("c_" ++ "5" ++ "_startup") "Introduction"
            [lessonOf (CurItem.mk "lecture" 10 "L0" (some "a0") none)],
          CourseModule.mk (toString (11 : Int)) "C1"
            [lessonOf (CurItem.mk "lecture" 12 "L1" (some "a1") none),
              lessonOf (CurItem.mk "lecture" 13 "L2" (some "a2") none)]] := by
  constructor
  · intro cid cname pre ch rest hpre hlec hch
    have hany : (pre ++ ch :: rest).any (fun it => it.cls == "chapter") = true := by
      rw [List.any_eq_true]
      exact ⟨ch, List.mem_append_right pre (List.mem_cons_self ch rest), by simp [hch]⟩
    unfold buildModules
    rw [hany]
    simp only [if_pos rfl, if_true]
    rw [List.foldl_append, stepFold_leading cid pre [] hpre hlec, List.foldl_cons,
      show stepFold cid ([], some (CourseModule.mk ("c_" ++ cid ++ "_startup") "Introduction"
          ((pre.filter (fun it => it.cls == "lecture")).map lessonOf))) ch =
        ([CourseModule.mk ("c_" ++ cid ++ "_startup") "Introduction"
            ((pre.filter (fun it => it.cls == "lecture")).map lessonOf)],
          some (CourseModule.mk (toString ch.id) ch.title [])) by
            simp [stepFold, hch, Option.toList]]
    have hB := finishState_foldl_done cid rest
      [CourseModule.mk ("c_" ++ cid ++ "_startup") "Introduction"
        ((pre.filter (fun it => it.cls == "lecture")).map lessonOf)]
      (some (CourseModule.mk (toString ch.id) ch.title []))
    unfold finishState at hB
    rw [hB]
    exact ⟨_, rfl⟩
  · rfl

theorem buildModules_startup_module_witness :
    ∃ tailMods,
      buildModules "9" "N"
          ([CurItem.mk "lecture" 1 "L0" none none] ++
            (CurItem.mk "chapter" 2 "C1" none none) :: [CurItem.mk "lecture" 3 "L1" none none]) =
        CourseModule.mk ("c_" ++ "9" ++ "_startup") "Introduction"
            (([CurItem.mk "lecture" 1 "L0" none none].filter
              (fun it => it.cls == "lecture")).map lessonOf) :: tailMods :=
  buildModules_startup_module.1 "9" "N" [CurItem.mk "lecture" 1 "L0" none none]
    (CurItem.mk "chapter" 2 "C1" none none) [CurItem.mk "lecture" 3 "L1" none none]
    (by decide) ⟨CurItem.mk "lecture" 1 "L0" none none, by simp, rfl⟩ rfl

/-- Claim C9: the batch loop of `fetch_course_content` catches a failing
curriculum fetch and moves on: the final structure is the concatenation, in
batch order, of the module lists of exactly the courses whose fetch
succeeded, with a failing course contributing nothing and aborting
nothing. -/
theorem fetchCourseContent_skips_failures
    (fetchCur : Course → Except String (List CurItem)) (courses : List Course) :
    fetchCourseContent fetchCur courses =
      (courses.map (fun c =>
        match fetchCur c with
        | Except.error _ => []
        | Except.ok items => buildModules c.id c.name items)).flatten := by
  have key : ∀ (cs : List Course) (acc : List CourseModule),
      cs.foldl
          (fun acc c =>
            match fetchCur c with
            | Except.error _ => acc
            | Except.ok items => acc ++ buildModules c.id c.name items)
          acc =
        acc ++ (cs.map (fun c =>
          match fetchCur c with
          | Except.error _ => []
          | Except.ok items => buildModules c.id c.name items)).flatten := by
    intro cs
    induction cs with
    | nil =>
      intro acc
      simp
    | cons c rest ih =>
      intro acc
      rw [List.foldl_cons]
      cases hf : fetchCur c with
      | error e =>
        simp only [hf]
        rw [ih acc]
        simp [hf]
      | ok items =>
        simp only [hf]
        rw [ih (acc ++ buildModules c.id c.name items)]
        simp [hf, List.append_assoc]
  rw [fetchCourseContent, key courses []]
  simp

/-! ### Cursor pagination (`UdemyPlatform.fetch_courses`, `_fetch_curriculum`) -/

/-- One server response page of the pagination envelope
`{results: [...], next: url | null}`. -/
structure Page (α : Type) where
  results : List α
  next : Option String
deriving DecidableEq

/-- Trace-based embedding of the `while url:` pagination loops of
`fetch_courses` and `_fetch_curriculum`: the argument lists the server's
response pages in request order, and the loop accumulates each visited
page's `results` and follows `next` while it is truthy (present and
non-empty). -/
def paginate {α : Type} : List (Page α) → List α
  | [] => []
  | p :: rest =>
    p.results ++ (match p.next with
      | none => []
      | some u => if u = "" then [] else paginate rest)

/-- The number of pages the pagination loop requests from a given response
trace: it keeps consuming pages exactly while `next` is truthy. -/
def pagesConsumed {α : Type} : List (Page α) → Nat
  | [] => 0
  | p :: rest =>
    1 + (match p.next with
      | none => 0
      | some u => if u = "" then 0 else pagesConsumed rest)

/-- Claim C4: over a response-page sequence in which every page except the
last carries a `next` cursor URL and the last page's `next` is null/absent,
the loop visits every page exactly once — terminating exactly at the page
whose `next` is null — and the aggregate item sequence is the concatenation
of the pages' `results` lists in request order. -/
theorem paginate_concat_results {α : Type} (body : List (Page α)) (last : Page α)
    (hbody : ∀ p ∈ body, ∃ u, p.next = some u ∧ u ≠ "")
    (hlast : last.next = none) :
    paginate (body ++ [last]) = ((body ++ [last]).map (fun p => p.results)).flatten ∧
      pagesConsumed (body ++ [last]) = (body ++ [last]).length := by
  induction body with
  | nil =>
    simp [paginate, pagesConsumed, hlast]
  | cons p rest ih =>
    obtain ⟨u, hu, hne⟩ := hbody p (List.mem_cons_self p rest)
    obtain ⟨ihp, ihc⟩ := ih (fun q hq => hbody q (List.mem_cons_of_mem p hq))
    constructor
    · rw [List.cons_append,
        show paginate (p :: (rest ++ [last])) =
          p.results ++ paginate (rest ++ [last]) by simp [paginate, hu, hne],
        ihp]
      simp
    · rw [List.cons_append,
        show pagesConsumed (p :: (rest ++ [last])) =
          1 + pagesConsumed (rest ++ [last]) by simp [pagesConsumed, hu, hne],
        ihc]
      simp [Nat.add_comm]

theorem paginate_concat_results_witness :
    paginate ([(Page.mk [1, 2] (some "u2") : Page Nat)] ++ [Page.mk [3] none]) =
        (([(Page.mk [1, 2] (some "u2") : Page Nat)] ++ [Page.mk [3] none]).map
          (fun p : Page Nat => p.results)).flatten ∧
      pagesConsumed ([(Page.mk [1, 2] (some "u2") : Page Nat)] ++ [Page.mk [3] none]) =
        ([(Page.mk [1, 2] (some "u2") : Page Nat)] ++ [Page.mk [3] none]).length :=
  paginate_concat_results [(Page.mk [1, 2] (some "u2") : Page Nat)] (Page.mk [3] none)
    (by
      intro p hp
      simp only [List.mem_singleton] at hp
      exact ⟨"u2", by rw [hp], by decide⟩)
    rfl

/-! ### Video URL resolution result (`UdemyPlatform._get_video_details`) -/

/-- One entry of `download_urls.Video`, holding the download file URL. -/
structure DFile where
  file : Option String
deriving DecidableEq

/-- The `download_urls` dictionary of an asset-detail response, reduced to
the `Video` key consumed here (`download_urls.get("Video", [])`; an absent
key is the empty list).  A non-dict `download_urls` value is modelled as
`none` at the use site. -/
structure DownloadUrls where
  video : List DFile
deriving DecidableEq

/-- The asset-detail response fields `_get_video_details` consumes. -/
structure AssetData where
  media_sources : Option (List MediaSource)
  download_urls : Option DownloadUrls
deriving DecidableEq

/-- `_get_video_details` after a successful request: if `media_sources` is
truthy (present and non-empty), run the quality-selection loop and — only
`if best:` is truthy, i.e. the selected entry is a non-empty dict — return
its `src` and `label`; otherwise fall through to `download_urls.Video` and
return the first entry's `file` with the label `"Download"`; otherwise
`(None, "")`. -/
def getVideoDetails (data : AssetData) : Option String × Option String :=
  let mediaResult : Option (Option String × Option String) :=
    match data.media_sources with
    | some srcs =>
      if srcs.isEmpty then none
      else
        match selectBest srcs with
        | some best => if dictTruthy best then some (best.src, best.label) else none
        | none => none
    | none => none
  match mediaResult with
  | some r => r
  | none =>
    match data.download_urls with
    | some du =>
      match du.video with
      | [] => (none, some "")
      | f :: _ => (f.file, some "Download")
    | none => (none, some "")

/-- Claim C10, counterexample: two assets with non-empty `media_sources`
for which `_get_video_details` does fall back to `download_urls.Video`.
First, `[{label: "-2", src: "u"}]`: the selection loop picks nothing
(`-2 > -1` fails).  Second, `[{}]` — a single empty entry dict, so every
label is absent, the case the claim singles out: its resolution `0` beats
`-1` and the entry becomes `best`, but `if best:` is false on the empty
dict, so the fallback URL and the `"Download"` label are returned instead
of a `media_sources` selection. -/
theorem getVideoDetails_fallback_on_negative :
    getVideoDetails
        (AssetData.mk (some [MediaSource.mk (some "-2") (some "u") false])
          (some (DownloadUrls.mk [DFile.mk (some "f")]))) =
        (some "f", some "Download") ∧
      getVideoDetails
          (AssetData.mk (some [MediaSource.mk none none false])
            (some (DownloadUrls.mk [DFile.mk (some "f")]))) =
        (some "f", some "Download") := by
  constructor
  · rfl
  · rfl

/-- Claim C10, amended: whenever `media_sources` is a non-empty list of
non-empty entry dicts in which some entry's parsed resolution exceeds the
initial maximum `-1` — in particular whenever any entry's label is absent
or unparseable, both of which count as resolution `0` — resolution returns
the selected media-source entry's `src` and `label`: it never consults
`download_urls`, and when the selected entry's `src` field is missing it
yields no URL rather than trying the fallback.  (When every entry parses
at most `-1`, or the selected entry is an empty dict and so falsy, the
code instead falls through to `download_urls.Video`.) -/
theorem getVideoDetails_uses_media_sources (data : AssetData) (srcs : List MediaSource)
    (hms : data.media_sources = some srcs) (hex : ∃ x ∈ srcs, resOf x > -1)
    (htru : ∀ x ∈ srcs, dictTruthy x = true) :
    ∃ best, selectBest srcs = some best ∧
      getVideoDetails data = (best.src, best.label) := by
  have hne : srcs.isEmpty = false := by
    obtain ⟨x, hx, -⟩ := hex
    cases srcs with
    | nil => exact absurd hx (by simp)
    | cons a t => rfl
  rcases selectAux_spec srcs none (-1) with ⟨-, hall⟩ | ⟨l1, b, l2, hdec, heq, -, -, -⟩
  · obtain ⟨x, hx, hgt⟩ := hex
    exact absurd (hall x hx) (by omega)
  · have hsel : selectBest srcs = some b := by rw [selectBest, heq]
    have hbmem : b ∈ srcs := by
      rw [hdec]
      exact List.mem_append_right l1 (List.mem_cons_self b l2)
    refine ⟨b, hsel, ?_⟩
    unfold getVideoDetails
    rw [hms]
    simp only [hne, Bool.false_eq_true, if_false, hsel, htru b hbmem, if_true]

theorem getVideoDetails_uses_media_sources_witness :
    ∃ best, selectBest [MediaSource.mk (some "720p") none false] = some best ∧
      getVideoDetails
          (AssetData.mk (some [MediaSource.mk (some "720p") none false])
            (some (DownloadUrls.mk [DFile.mk (some "f")]))) =
        (best.src, best.label) :=
  getVideoDetails_uses_media_sources
    (AssetData.mk (some [MediaSource.mk (some "720p") none false])
      (some (DownloadUrls.mk [DFile.mk (some "f")])))
    [MediaSource.mk (some "720p") none false] rfl
    ⟨MediaSource.mk (some "720p") none false, by simp, by decide⟩
    (by decide)

/-! ### Session header derivation (`UdemyPlatform.authenticate`,
`_apply_cookie_headers`, `_try_parse_cookie_payload`) -/

/-- The `requests.Session` header dictionary, as a lookup function. -/
def Headers : Type := String → Option String

/-- Dictionary lookup on the header map. -/
def getHeader (hs : Headers) (k : String) : Option String := hs k

/-- Dictionary overwrite on the header map
(`self._session.headers[k] = v`). -/
def setHeader (hs : Headers) (k v : String) : Headers :=
  fun k2 => if k2 = k then some v else hs k2

/-- The browser-mimicking base headers installed by `authenticate` before
any token-derived header. -/
def baseHeaders (ua : String) : Headers :=
  fun k =>
    if k = "User-Agent" then some ua
    else if k = "Referer" then some "https://www.udemy.com/home/my-courses/learning/"
    else if k = "Accept-Language" then some "pt-BR"
    else if k = "Sec-GPC" then some "1"
    else none

/-- Whitespace skipped at the front, as JSON tokenisation does. -/
def skipWs (l : List Char) : List Char := l.dropWhile Char.isWhitespace

/-- A JSON string literal without escape sequences: the fragment of JSON
strings this program ever produces or is given in the claims. -/
def parseJString : List Char → Option (String × List Char)
  | '"' :: rest =>
    (match rest.dropWhile (fun c => c != '"') with
     | '"' :: r2 => some (String.mk (rest.takeWhile (fun c => c != '"')), r2)
     | _ => none)
  | _ => none

/-- Comma-separated `"key": "value"` pairs of a flat JSON object; the fuel
argument bounds the recursion by the input length. -/
def parsePairs : Nat → List Char → Option (List (String × String) × List Char)
  | 0, _ => none
  | Nat.succ fuel, l =>
    match parseJString (skipWs l) with
    | none => none
    | some (k, r1) =>
      match skipWs r1 with
      | ':' :: r2 =>
        (match parseJString (skipWs r2) with
         | none => none
         | some (v, r3) =>
           match skipWs r3 with
           | ',' :: r4 =>
             (match parsePairs fuel r4 with
              | some (ps, r) => some ((k, v) :: ps, r)
              | none => none)
           | r4 => some ([(k, v)], r4))
      | _ => none

/-- Model of `json.loads` restricted to flat string-valued JSON objects —
the shape `_build_cookie_payload` produces and `_try_parse_cookie_payload`
accepts.  Any input outside this fragment parses to `none`, which agrees
with `_try_parse_cookie_payload` returning `None` both on a parse error and
on a parsed value that is not a dict. -/
def parseJsonObj (s : String) : Option (List (String × String)) :=
  match skipWs s.data with
  | '\x7b' :: r =>
    (match skipWs r with
     | '\x7d' :: r2 => if (skipWs r2).isEmpty then some [] else none
     | _ =>
       match parsePairs (r.length + 1) r with
       | some (ps, r2) =>
         (match skipWs r2 with
          | '\x7d' :: r3 => if (skipWs r3).isEmpty then some ps else none
          | _ => none)
       | none => none)
  | _ => none

/-- Python dict lookup on parsed JSON pairs: the last binding of a key
wins. -/
def jlookup (ps : List (String × String)) (k : String) : Option String :=
  (ps.reverse.find? (fun pr => pr.1 == k)).map (fun pr => pr.2)

/-- `UdemyPlatform._try_parse_cookie_payload`: the token data parses as a
JSON dict tagged `token_type = "cookie"` with a truthy `cookie` field; the
cookie string is returned, otherwise `None`. -/
def tryParseCookiePayload (s : String) : Option String :=
  match parseJsonObj s with
  | none => none
  | some ps =>
    if jlookup ps "token_type" = some "cookie" then
      match jlookup ps "cookie" with
      | some c => if c ≠ "" then some c else none
      | none => none
    else none

/-- The `csrftoken` extraction of `_apply_cookie_headers`: the first
stripped `;`-part starting with `csrftoken=` yields the text after that
first `=`. -/
def findCsrf (c : String) : Option String :=
  ((splitOnCharL ';' c.data).map stripWsL).findSome?
    (fun p =>
      if isPre ("csrftoken=".data) p then some (String.mk (p.drop ("csrftoken=".data.length)))
      else none)

/-- The `kv` map built by `_apply_cookie_headers` from the stripped,
nonempty `;`-parts containing an `=`: key before the first `=`, value after
it; later duplicates overwrite earlier ones. -/
def cookiePairsOf (c : String) : List (String × String) :=
  (((splitOnCharL ';' c.data).map stripWsL).filter (fun p => !p.isEmpty)).filterMap
    (fun p =>
      if p.contains '=' then
        some (String.mk (p.takeWhile (fun ch => ch != '=')),
          String.mk ((p.dropWhile (fun ch => ch != '=')).drop 1))
      else none)

/-- `kv.get(cookie_key)` on the cookie key/value map (last binding wins). -/
def kvGet (c key : String) : Option String :=
  ((cookiePairsOf c).reverse.find? (fun pr => pr.1 == key)).map (fun pr => pr.2)

/-- `_set_if_present`: install the derived header only when the cookie key
is present with a truthy (non-empty) value. -/
def setIf (c : String) (hs : Headers) (hn ck : String) : Headers :=
  match kvGet c ck with
  | some v => if v ≠ "" then setHeader hs hn v else hs
  | none => hs

/-- The CSRF-header step of `_apply_cookie_headers`, guarded by the
substring test `"csrftoken=" in cookie_content`. -/
def csrfStep (c : String) (hs : Headers) : Headers :=
  if containsSub ("csrftoken=".data) c.data then
    match findCsrf c with
    | some v => setHeader hs "X-CSRFToken" v
    | none => hs
  else hs

/-- `UdemyPlatform._apply_cookie_headers`: the cookie header, the fixed
companion headers, the CSRF header, then one optional derived header per
named cookie. -/
def applyCookieHeaders (hs0 : Headers) (c : String) : Headers :=
  setIf c (setIf c (setIf c (setIf c (setIf c (setIf c (setIf c (setIf c (setIf c (setIf c
    (csrfStep c
      (setHeader
        (setHeader
          (setHeader (setHeader hs0 "Cookie" c) "X-Requested-With" "XMLHttpRequest")
          "Accept" "application/json, text/plain, */*")
        "X-Udemy-Cache-Logged-In" "1"))
    "X-Udemy-Cache-Release" "ud_cache_release")
    "X-Udemy-Cache-User" "ud_cache_user")
    "X-Udemy-Cache-Brand" "ud_cache_brand")
    "X-Udemy-Cache-Marketplace-Country" "ud_cache_marketplace_country")
    "X-Udemy-Cache-Price-Country" "ud_cache_price_country")
    "X-Udemy-Cache-Version" "ud_cache_version")
    "X-Udemy-Cache-Language" "ud_cache_language")
    "X-Udemy-Cache-Device" "ud_cache_device")
    "X-Udemy-Cache-Campaign-Code" "ud_cache_campaign_code")
    "X-Udemy-Client-Id" "client_id"

/-- `UdemyPlatform.authenticate` after token acquisition: base headers,
then either the cookie-derived headers (JSON payload or `Cookie:` prefix),
the verbatim bearer header, or the raw string treated as a cookie header. -/
def authenticateHeaders (ua tokenData : String) : Headers :=
  let hs := baseHeaders ua
  let cookieContent : String :=
    match tryParseCookiePayload tokenData with
    | some c => c
    | none =>
      if isPre ("Cookie:".data) tokenData.data then String.mk (tokenData.data.drop 7) else ""
  if cookieContent ≠ "" then applyCookieHeaders hs cookieContent
  else if isPre ("bearer ".data) (tokenData.data.map Char.toLower) then
    setHeader hs "Authorization" tokenData
  else applyCookieHeaders hs tokenData

/-- The JSON cookie payload named by the claim. -/
def cookieJsonPayload : String :=
  "\x7b\"token_type\":\"cookie\",\"cookie\":\"csrftoken=x; ud_cache_user=y; cf_clearance=z; dj_session_id=w\"\x7d"

theorem getHeader_setHeader_ne (hs : Headers) (k v k2 : String) (h : k2 ≠ k) :
    getHeader (setHeader hs k v) k2 = getHeader hs k2 := by
  simp [getHeader, setHeader, h]

theorem getHeader_setIf_ne (c : String) (hs : Headers) (hn ck k : String) (h : k ≠ hn) :
    getHeader (setIf c hs hn ck) k = getHeader hs k := by
  unfold setIf
  cases kvGet c ck with
  | none => rfl
  | some v =>
    by_cases hv : v = ""
    · simp [hv]
    · simp only [if_pos hv]
      exact getHeader_setHeader_ne hs hn v k h

theorem getHeader_setIf_none (c : String) (hs : Headers) (hn ck k : String)
    (h : kvGet c ck = none) :
    getHeader (setIf c hs hn ck) k = getHeader hs k := by
  unfold setIf
  rw [h]

theorem getHeader_csrfStep_ne (c : String) (hs : Headers) (k : String)
    (h : k ≠ "X-CSRFToken") :
    getHeader (csrfStep c hs) k = getHeader hs k := by
  unfold csrfStep
  by_cases hc : containsSub ("csrftoken=".data) c.data = true
  · rw [if_pos hc]
    cases findCsrf c with
    | none => rfl
    | some v => exact getHeader_setHeader_ne hs _ v k h
  · rw [if_neg hc]

/-- Claim C8: the raw string `"Bearer abc123"` yields only the bearer
`Authorization` header and no cookie-derived header; the JSON cookie
payload with `csrftoken`, `ud_cache_user`, `cf_clearance` and
`dj_session_id` yields the cookie header, the CSRF header and the
`ud_cache_user`-derived header while every absent optional cookie yields no
header; and for every cookie string whose `ud_cache_brand` key is absent or
malformed (no usable value in the key/value map) the derived header is
omitted rather than any error raised — header derivation is total. -/
theorem authenticate_headers_spec :
    (getHeader (authenticateHeaders "UA" "Bearer abc123") "Authorization" =
          some "Bearer abc123" ∧
        getHeader (authenticateHeaders "UA" "Bearer abc123") "Cookie" = none ∧
        getHeader (authenticateHeaders "UA" "Bearer abc123") "X-CSRFToken" = none ∧
        getHeader (authenticateHeaders "UA" "Bearer abc123") "X-Udemy-Cache-User" = none ∧
        getHeader (authenticateHeaders "UA" "Bearer abc123") "X-Requested-With" = none) ∧
      (getHeader (authenticateHeaders "UA" cookieJsonPayload) "Cookie" =
          some "csrftoken=x; ud_cache_user=y; cf_clearance=z; dj_session_id=w" ∧
        getHeader (authenticateHeaders "UA" cookieJsonPayload) "X-CSRFToken" = some "x" ∧
        getHeader (authenticateHeaders "UA" cookieJsonPayload) "X-Udemy-Cache-User" =
          some "y" ∧
        getHeader (authenticateHeaders "UA" cookieJsonPayload) "X-Udemy-Cache-Release" =
          none ∧
        getHeader (authenticateHeaders "UA" cookieJsonPayload) "X-Udemy-Cache-Brand" = none ∧
        getHeader (authenticateHeaders "UA" cookieJsonPayload) "X-Udemy-Cache-Version" =
          none ∧
        getHeader (authenticateHeaders "UA" cookieJsonPayload) "X-Udemy-Client-Id" = none ∧
        getHeader (authenticateHeaders "UA" cookieJsonPayload) "Authorization" = none) ∧
      (∀ ua c : String, kvGet c "ud_cache_brand" = none →
        getHeader (applyCookieHeaders (baseHeaders ua) c) "X-Udemy-Cache-Brand" = none) := by
  refine ⟨⟨rfl, rfl, rfl, rfl, rfl⟩, ⟨rfl, rfl, rfl, rfl, rfl, rfl, rfl, rfl⟩, ?_⟩
  intro ua c hnone
  unfold applyCookieHeaders
  rw [getHeader_setIf_ne c _ _ _ _ (by decide), getHeader_setIf_ne c _ _ _ _ (by decide),
    getHeader_setIf_ne c _ _ _ _ (by decide), getHeader_setIf_ne c _ _ _ _ (by decide),
    getHeader_setIf_ne c _ _ _ _ (by decide), getHeader_setIf_ne c _ _ _ _ (by decide),
    getHeader_setIf_ne c _ _ _ _ (by decide), getHeader_setIf_none c _ _ _ _ hnone,
    getHeader_setIf_ne c _ _ _ _ (by decide), getHeader_setIf_ne c _ _ _ _ (by decide),
    getHeader_csrfStep_ne c _ _ (by decide),
    getHeader_setHeader_ne _ _ _ _ (by decide), getHeader_setHeader_ne _ _ _ _ (by decide),
    getHeader_setHeader_ne _ _ _ _ (by decide), getHeader_setHeader_ne _ _ _ _ (by decide)]
  rfl

theorem authenticate_headers_spec_witness :
    getHeader (applyCookieHeaders (baseHeaders "UA") "csrftoken=x") "X-Udemy-Cache-Brand" =
      none :=
  authenticate_headers_spec.2.2 "UA" "csrftoken=x" rfl
